import Mathlib

/-!
Shallow embedding of the scheduling core of `src/services/Scheduler.ts`
(plus `Task.isDueSoon` from the Task model in `src/models/Task.ts`).

Modelling conventions:
* Instants are integer minutes on a global timeline.  The source works with
  JS `Date` values; its millisecond constant `48 * 60 * 60 * 1000` becomes
  `48 * 60` minutes, a calendar day is `1440` minutes, and the hard-coded
  slot duration of 30 minutes stays `30`.
* Weekdays: a calendar day with absolute index `d` has weekday `d % 7`
  (`workingDays` ranges over `0..6`; quantifying over the start day index
  reaches every combination of weekday and working-day set).
* Object references: a slot's `task` field holds the task's `id`; the grid
  is a `List Slot` and in-place mutation of a slot becomes replacement at
  the slot's index in the list.  The flow of `task.metadata.scheduledTime`
  mutation is explicit state passing (each helper returns the updated task).
-/

namespace Scheduler

/-- TimeSlot from `Scheduler.ts`: `startTime`, `endTime`, optional assigned
task (here: the task's id). -/
structure Slot where
  startTime : Int
  endTime : Int
  task : Option Nat := none
  deriving Repr, DecidableEq

/-- The fields of `Task` (`src/models/Task.ts`) that the scheduling core
reads or writes: `id`, `metadata.priority`, `metadata.timeEstimate` (minutes),
`metadata.deadline`, `metadata.scheduledTime`. -/
structure Task where
  id : Nat
  priority : Int
  timeEstimate : Nat
  deadline : Option Int := none
  scheduledTime : Option Int := none
  deriving Repr, DecidableEq

/-- SchedulerSettings: the parsed pieces of `workingHoursStart` / `workingHoursEnd`
(`'HH:MM'` strings split on `:` in the source) and the `workingDays` list. -/
structure SchedulerSettings where
  startHour : Nat
  startMinute : Nat
  endHour : Nat
  endMinute : Nat
  workingDays : List Nat
  deriving Repr, DecidableEq

/-- Working-hours start, as minute-of-day (`dayStart.setHours(startHour, startMinute)`). -/
def startMinutes (st : SchedulerSettings) : Int :=
  st.startHour * 60 + st.startMinute

/-- Working-hours end, as minute-of-day (`dayEnd.setHours(endHour, endMinute)`). -/
def endMinutes (st : SchedulerSettings) : Int :=
  st.endHour * 60 + st.endMinute

/-- Inner `while (slotStart < dayEnd)` loop of `generateTimeSlots`: emit
30-minute slots, dropping a trailing slot that would cross `dayEnd`
(`if (slotEnd <= dayEnd)`). -/
def daySlots (slotStart dayEnd : Int) : List Slot :=
  if h : slotStart < dayEnd then
    (if slotStart + 30 ≤ dayEnd then
        [{ startTime := slotStart, endTime := slotStart + 30, task := none }]
      else [])
      ++ daySlots (slotStart + 30) dayEnd
  else []
termination_by (dayEnd - slotStart).toNat
decreasing_by omega

/-- One iteration of the day loop of `generateTimeSlots`: a working day
contributes its 30-minute grid, a non-working day contributes nothing. -/
def daySlotsFor (st : SchedulerSettings) (startDay day : Nat) : List Slot :=
  if st.workingDays.contains ((startDay + day) % 7) then
    daySlots (((startDay + day : Nat) : Int) * 1440 + startMinutes st)
             (((startDay + day : Nat) : Int) * 1440 + endMinutes st)
  else []

/-- Scheduler.generateTimeSlots: iterate `daysToSchedule` calendar days from
the start date (truncated to midnight, i.e. day index `startDay`). -/
def generateTimeSlots (st : SchedulerSettings) (startDay daysToSchedule : Nat) : List Slot :=
  (List.range daysToSchedule).flatMap (daySlotsFor st startDay)

/-- Urgency test of the comparator in `sortTasksByPriority`:
`deadline.getTime() - now.getTime() < 48h` for a task that has a deadline. -/
def isUrgent (now : Int) (t : Task) : Bool :=
  match t.deadline with
  | some d => decide (d - now < 48 * 60)
  | none => false

/-- The comparator body of `sortTasksByPriority`, with the per-comparison
`new Date()` threaded in as the fixed parameter `now`.  Returns the JS
comparator value (negative, zero or positive). -/
def compareTasks (now : Int) (a b : Task) : Int :=
  if isUrgent now a = true ∧ isUrgent now b = false then -1
  else if isUrgent now a = false ∧ isUrgent now b = true then 1
  else if a.priority ≠ b.priority then a.priority - b.priority
  else
    match a.deadline, b.deadline with
    | some da, some db => da - db
    | some _, none => -1
    | none, some _ => 1
    | none, none => (a.timeEstimate : Int) - (b.timeEstimate : Int)

/-- The "a stays weakly before b" relation induced by the comparator; JS
`Array.prototype.sort` with a consistent comparator produces a stable sort
for exactly this relation. -/
def taskLE (now : Int) (a b : Task) : Bool :=
  decide (compareTasks now a b ≤ 0)

/-- Scheduler.sortTasksByPriority: `[...tasks].sort(comparator)`, a stable
sort by the comparator, leaving the input list unmodified. -/
def sortTasksByPriority (now : Int) (tasks : List Task) : List Task :=
  tasks.mergeSort (taskLE now)

/-- Pair every slot of a grid with its index (the stand-in for the object
references the source passes around). -/
def idxFrom (n : Nat) : List Slot → List (Nat × Slot)
  | [] => []
  | s :: rest => (n, s) :: idxFrom (n + 1) rest

/-- All slots of a grid, paired with their grid index. -/
def idxSlots (slots : List Slot) : List (Nat × Slot) :=
  idxFrom 0 slots

/-- Loop of Scheduler.findConsecutiveSlots, over index-tagged slots:
skip assigned slots, reset the accumulated run when a free slot is not
back-to-back with the previous accepted one (`startTime !== lastSlotTime`),
and return the first `slotsNeeded`-long run (`slice(0, slotsNeeded)`). -/
def findRun : List (Nat × Slot) → Nat → List (Nat × Slot) → Option Int → List (Nat × Slot)
  | [], _, _, _ => []
  | p :: rest, slotsNeeded, consecutiveSlots, lastSlotTime =>
    if p.2.task.isSome then
      findRun rest slotsNeeded consecutiveSlots lastSlotTime
    else
      let acc :=
        (match lastSlotTime with
          | some t => if p.2.startTime ≠ t then [] else consecutiveSlots
          | none => consecutiveSlots) ++ [p]
      if slotsNeeded ≤ acc.length then acc.take slotsNeeded
      else findRun rest slotsNeeded acc (some p.2.endTime)

/-- Scheduler.findConsecutiveSlots on a plain slot sequence (indices are
attached for the scan and dropped again; they do not influence it). -/
def findConsecutiveSlots (slots : List Slot) (slotsNeeded : Nat) : List Slot :=
  (findRun (idxSlots slots) slotsNeeded [] none).map (·.2)

/-- The `Math.ceil(task.metadata.timeEstimate / 30)` computation both
placement helpers perform (ceiling division by the hard-coded 30). -/
def slotsNeededFor (timeEstimate : Nat) : Nat :=
  (timeEstimate + 29) / 30

/-- Write `slot.task = task` at one grid index. -/
def setSlotTask : List Slot → Nat → Nat → List Slot
  | [], _, _ => []
  | s :: rest, 0, tid => { s with task := some tid } :: rest
  | s :: rest, i + 1, tid => s :: setSlotTask rest i tid

/-- Scheduler.assignTaskToSlots: mark every found slot with the task and set
`task.metadata.scheduledTime = slots[0].startTime`.  (On an empty list the
source would fault reading `slots[0]`; callers only pass runs of the required
length, and `head?` renders the `slots[0]` access.) -/
def assignTaskToSlots (task : Task) (found : List (Nat × Slot)) (slots : List Slot) :
    List Slot × Task :=
  (found.foldl (fun g p => setSlotTask g p.1 task.id) slots,
   { task with scheduledTime := found.head?.map (·.2.startTime) })

/-- Scheduler.scheduleTaskWithDeadline: filter to free slots ending no later
than the deadline, search a run of `ceil(timeEstimate/30)` consecutive slots
there, and assign on success.  Returns (success, updated grid, updated task). -/
def scheduleTaskWithDeadline (task : Task) (availableSlots : List Slot) :
    Bool × List Slot × Task :=
  match task.deadline with
  | none => (false, availableSlots, task)
  | some deadline =>
    let deadlineSlots := (idxSlots availableSlots).filter
      (fun p => decide (p.2.task = none) && decide (p.2.endTime ≤ deadline))
    if deadlineSlots.length = 0 then (false, availableSlots, task)
    else
      let slotsNeeded := slotsNeededFor task.timeEstimate
      let consecutiveSlots := findRun deadlineSlots slotsNeeded [] none
      if slotsNeeded ≤ consecutiveSlots.length then
        let r := assignTaskToSlots task consecutiveSlots availableSlots
        (true, r.1, r.2)
      else (false, availableSlots, task)

/-- Scheduler.scheduleTaskAnywhere: like `scheduleTaskWithDeadline` but over
the full slot sequence, without the deadline filter. -/
def scheduleTaskAnywhere (task : Task) (availableSlots : List Slot) :
    Bool × List Slot × Task :=
  let slotsNeeded := slotsNeededFor task.timeEstimate
  let consecutiveSlots := findRun (idxSlots availableSlots) slotsNeeded [] none
  if slotsNeeded ≤ consecutiveSlots.length then
    let r := assignTaskToSlots task consecutiveSlots availableSlots
    (true, r.1, r.2)
  else (false, availableSlots, task)

/-- First pass of Scheduler.scheduleTasks: over the sorted tasks in order,
attempt a deadline-constrained placement for each task with a deadline. -/
def pass1 : List Task → List Slot → List Slot × List Task
  | [], slots => (slots, [])
  | t :: rest, slots =>
    if t.deadline.isSome then
      let r := scheduleTaskWithDeadline t slots
      let rr := pass1 rest r.2.1
      (rr.1, r.2.2 :: rr.2)
    else
      let rr := pass1 rest slots
      (rr.1, t :: rr.2)

/-- Second pass of Scheduler.scheduleTasks: for every task still without a
`scheduledTime`, attempt a best-effort placement anywhere. -/
def pass2 : List Task → List Slot → List Slot × List Task
  | [], slots => (slots, [])
  | t :: rest, slots =>
    if t.scheduledTime.isSome then
      let rr := pass2 rest slots
      (rr.1, t :: rr.2)
    else
      let r := scheduleTaskAnywhere t slots
      let rr := pass2 rest r.2.1
      (rr.1, r.2.2 :: rr.2)

/-- The two placement passes of Scheduler.scheduleTasks over a given slot
grid: sort, pass 1, pass 2.  Returns the final grid next to the task list the
source returns (the source keeps the grid in a local variable). -/
def runPasses (now : Int) (tasks : List Task) (slots : List Slot) :
    List Slot × List Task :=
  let sortedTasks := sortTasksByPriority now tasks
  let r1 := pass1 sortedTasks slots
  pass2 r1.2 r1.1

/-- Scheduler.scheduleTasks: generate the grid for the horizon and run the
two placement passes over the sorted tasks. -/
def scheduleTasks (st : SchedulerSettings) (now : Int) (tasks : List Task)
    (startDay daysToSchedule : Nat) : List Slot × List Task :=
  runPasses now tasks (generateTimeSlots st startDay daysToSchedule)

/-- Task.isDueSoon from `src/models/Task.ts`: deadline exists, is in the
future, and is within the next 48 hours. -/
def Task.isDueSoon (now : Int) (t : Task) : Bool :=
  match t.deadline with
  | none => false
  | some d => decide (now < d) && decide (d ≤ now + 48 * 60)

/-- Number of grid slots currently assigned to the task id `tid`. -/
def countAssigned (slots : List Slot) (tid : Nat) : Nat :=
  slots.countP (fun s => s.task == some tid)

/-- Grid evolution within a run: same length, every slot keeps its time
bounds, and an assigned slot keeps its assignee. -/
def SlotsMono (s s' : List Slot) : Prop :=
  s'.length = s.length ∧
  ∀ (i : Nat) (sl : Slot), s[i]? = some sl → ∃ sl', s'[i]? = some sl' ∧
    sl'.startTime = sl.startTime ∧ sl'.endTime = sl.endTime ∧
    ∀ tid, sl.task = some tid → sl'.task = some tid

/-- Task-list evolution within a run: same length, and a task whose
`scheduledTime` is set keeps that value. -/
def TasksMono (ts ts' : List Task) : Prop :=
  ts'.length = ts.length ∧
  ∀ (j : Nat) (t : Task) (v : Int), ts[j]? = some t → t.scheduledTime = some v →
    ∃ t', ts'[j]? = some t' ∧ t'.scheduledTime = some v

/-! Helper lemmas about the index tagging. -/

theorem mem_idxFrom {l : List Slot} :
    ∀ {n : Nat} {p : Nat × Slot}, p ∈ idxFrom n l →
      n ≤ p.1 ∧ l[p.1 - n]? = some p.2 ∧ p.2 ∈ l := by
  induction l with
  | nil => intro n p h; simp [idxFrom] at h
  | cons s rest ih =>
    intro n p h
    simp only [idxFrom, List.mem_cons] at h
    rcases h with h | h
    · subst h
      simp
    · obtain ⟨h1, h2, h3⟩ := ih h
      refine ⟨by omega, ?_, List.mem_cons_of_mem _ h3⟩
      have : p.1 - n = (p.1 - (n + 1)) + 1 := by omega
      rw [this, List.getElem?_cons_succ]
      exact h2

theorem pairwise_idxFrom (l : List Slot) :
    ∀ n : Nat, (idxFrom n l).Pairwise (fun p q => p.1 < q.1) := by
  induction l with
  | nil => intro n; simp [idxFrom]
  | cons s rest ih =>
    intro n
    refine List.Pairwise.cons ?_ (ih (n + 1))
    intro q hq
    have := (mem_idxFrom hq).1
    omega

theorem mem_idxSlots {slots : List Slot} {p : Nat × Slot} (h : p ∈ idxSlots slots) :
    slots[p.1]? = some p.2 ∧ p.2 ∈ slots := by
  have := mem_idxFrom (l := slots) (n := 0) h
  simpa using this

theorem pairwise_idxSlots (slots : List Slot) :
    (idxSlots slots).Pairwise (fun p q => p.1 < q.1) :=
  pairwise_idxFrom slots 0

/-! Helper lemmas about the consecutive-run scan. -/

theorem findRun_sublist :
    ∀ (l : List (Nat × Slot)) (n : Nat) (acc : List (Nat × Slot)) (lt : Option Int),
      List.Sublist (findRun l n acc lt) (acc ++ l) := by
  intro l
  induction l with
  | nil => intro n acc lt; simp [findRun]
  | cons p rest ih =>
    intro n acc lt
    by_cases hocc : p.2.task.isSome
    · simp only [findRun, hocc, if_true]
      exact (ih n acc lt).trans
        ((List.sublist_cons_self p rest).append_left acc)
    · simp only [findRun, hocc, Bool.false_eq_true, if_false]
      set acc0 : List (Nat × Slot) :=
        (match lt with
          | some t => if p.2.startTime ≠ t then [] else acc
          | none => acc) with hacc0
      have hsub : List.Sublist (acc0 ++ [p] ++ rest) (acc ++ p :: rest) := by
        have h1 : List.Sublist acc0 acc := by
          rcases lt with _ | t
          · simp [hacc0]
          · simp only [hacc0]
            split
            · exact List.nil_sublist acc
            · exact List.Sublist.refl acc
        have h2 : acc0 ++ [p] ++ rest = acc0 ++ (p :: rest) := by simp
        rw [h2]
        exact h1.append_right _
      by_cases hlen : n ≤ (acc0 ++ [p]).length
      · simp only [hlen, if_true]
        exact ((List.take_sublist _ _).trans (List.sublist_append_left _ rest)).trans hsub
      · simp only [hlen, if_false]
        exact (ih n (acc0 ++ [p]) (some p.2.endTime)).trans hsub

theorem findRun_spec :
    ∀ (l : List (Nat × Slot)) (n : Nat) (acc : List (Nat × Slot)) (lt : Option Int),
      (∀ p ∈ acc, p.2.task = none) →
      List.Chain' (fun p q => p.2.endTime = q.2.startTime) acc →
      (∀ t p, lt = some t → acc.getLast? = some p → p.2.endTime = t) →
      (lt = none → acc = []) →
      findRun l n acc lt = [] ∨
        ((findRun l n acc lt).length = n ∧
         (∀ p ∈ findRun l n acc lt, p.2.task = none) ∧
         List.Chain' (fun p q => p.2.endTime = q.2.startTime) (findRun l n acc lt)) := by
  intro l
  induction l with
  | nil => intro n acc lt _ _ _ _; left; simp [findRun]
  | cons p rest ih =>
    intro n acc lt hfree hchain hlast h0
    by_cases hocc : p.2.task.isSome
    · simp only [findRun, hocc, if_true]
      exact ih n acc lt hfree hchain hlast h0
    · have hpfree : p.2.task = none := by
        cases h : p.2.task
        · rfl
        · simp [h] at hocc
      have push : ∀ acc1 : List (Nat × Slot),
          (∀ q ∈ acc1 ++ [p], q.2.task = none) →
          List.Chain' (fun p q => p.2.endTime = q.2.startTime) (acc1 ++ [p]) →
          (if n ≤ (acc1 ++ [p]).length then List.take n (acc1 ++ [p])
              else findRun rest n (acc1 ++ [p]) (some p.2.endTime)) = [] ∨
            ((if n ≤ (acc1 ++ [p]).length then List.take n (acc1 ++ [p])
                else findRun rest n (acc1 ++ [p]) (some p.2.endTime)).length = n ∧
             (∀ q ∈ (if n ≤ (acc1 ++ [p]).length then List.take n (acc1 ++ [p])
                else findRun rest n (acc1 ++ [p]) (some p.2.endTime)), q.2.task = none) ∧
             List.Chain' (fun p q => p.2.endTime = q.2.startTime)
               (if n ≤ (acc1 ++ [p]).length then List.take n (acc1 ++ [p])
                 else findRun rest n (acc1 ++ [p]) (some p.2.endTime))) := by
        intro acc1 hfree' hchain'
        by_cases hlen : n ≤ (acc1 ++ [p]).length
        · simp only [hlen, if_true]
          right
          refine ⟨?_, ?_, hchain'.take n⟩
          · simp only [List.length_take]
            omega
          · intro q hq
            exact hfree' q (List.take_subset _ _ hq)
        · simp only [hlen, if_false]
          apply ih n (acc1 ++ [p]) (some p.2.endTime) hfree' hchain'
          · intro t q ht hq
            cases ht
            rw [List.getLast?_concat] at hq
            cases hq
            rfl
          · intro h; cases h
      rcases lt with _ | t
      · have hacc : acc = [] := h0 rfl
        subst hacc
        simp only [findRun, hocc, Bool.false_eq_true, if_false]
        exact push []
          (by
            intro q hq
            simp only [List.nil_append, List.mem_singleton] at hq
            subst hq
            exact hpfree)
          (by simp)
      · by_cases hst : p.2.startTime = t
        · have hfree' : ∀ q ∈ acc ++ [p], q.2.task = none := by
            intro q hq
            rcases List.mem_append.1 hq with hq | hq
            · exact hfree q hq
            · simp only [List.mem_singleton] at hq
              subst hq
              exact hpfree
          have hchain' : List.Chain' (fun p q => p.2.endTime = q.2.startTime) (acc ++ [p]) := by
            rw [List.chain'_append]
            refine ⟨hchain, List.chain'_singleton p, ?_⟩
            intro x hx y hy
            simp only [List.head?_cons, Option.mem_def, Option.some.injEq] at hy
            subst hy
            rw [hst]
            exact hlast t x rfl hx
          simp only [findRun, hocc, Bool.false_eq_true, if_false]
          rw [if_neg (show ¬(p.2.startTime ≠ t) from fun hne => hne hst)]
          exact push acc hfree' hchain'
        · simp only [findRun, hocc, Bool.false_eq_true, if_false]
          rw [if_pos hst]
          exact push []
            (by
              intro q hq
              simp only [List.nil_append, List.mem_singleton] at hq
              subst hq
              exact hpfree)
            (by simp)

/-! Helper lemmas about writing a task id into one slot. -/

theorem length_setSlotTask :
    ∀ (l : List Slot) (i tid : Nat), (setSlotTask l i tid).length = l.length := by
  intro l
  induction l with
  | nil => intro i tid; cases i <;> rfl
  | cons s rest ih =>
    intro i tid
    cases i with
    | zero => rfl
    | succ i => simpa [setSlotTask] using ih i tid

theorem getElem?_setSlotTask_ne :
    ∀ (l : List Slot) (i j tid : Nat), i ≠ j →
      (setSlotTask l i tid)[j]? = l[j]? := by
  intro l
  induction l with
  | nil => intro i j tid _; cases i <;> rfl
  | cons s rest ih =>
    intro i j tid hne
    cases i with
    | zero =>
      cases j with
      | zero => exact absurd rfl hne
      | succ j => simp [setSlotTask]
    | succ i =>
      cases j with
      | zero => simp [setSlotTask]
      | succ j =>
        simp only [setSlotTask, List.getElem?_cons_succ]
        exact ih i j tid (by omega)

theorem getElem?_setSlotTask_self :
    ∀ (l : List Slot) (i tid : Nat) (s : Slot), l[i]? = some s →
      (setSlotTask l i tid)[i]? = some { s with task := some tid } := by
  intro l
  induction l with
  | nil => intro i tid s h; simp at h
  | cons a rest ih =>
    intro i tid s h
    cases i with
    | zero =>
      simp only [List.getElem?_cons_zero, Option.some.injEq] at h
      subst h
      simp [setSlotTask]
    | succ i =>
      simp only [List.getElem?_cons_succ] at h
      simpa [setSlotTask] using ih i tid s h

theorem countAssigned_setSlotTask :
    ∀ (l : List Slot) (i : Nat) (s : Slot) (tid tid' : Nat),
      l[i]? = some s → s.task = none →
      countAssigned (setSlotTask l i tid) tid' =
        countAssigned l tid' + if tid = tid' then 1 else 0 := by
  intro l
  induction l with
  | nil => intro i s tid tid' h _; simp at h
  | cons a rest ih =>
    intro i s tid tid' h hfree
    cases i with
    | zero =>
      simp only [List.getElem?_cons_zero, Option.some.injEq] at h
      subst h
      simp only [setSlotTask, countAssigned, List.countP_cons, hfree]
      by_cases he : tid = tid' <;> simp [he, hfree]
    | succ i =>
      simp only [List.getElem?_cons_succ] at h
      simp only [setSlotTask, countAssigned, List.countP_cons]
      have := ih i s tid tid' h hfree
      simp only [countAssigned] at this
      omega

theorem slotsMono_refl (l : List Slot) : SlotsMono l l := by
  refine ⟨rfl, ?_⟩
  intro i sl h
  exact ⟨sl, h, rfl, rfl, fun _ ht => ht⟩

theorem slotsMono_trans {a b c : List Slot} (h1 : SlotsMono a b) (h2 : SlotsMono b c) :
    SlotsMono a c := by
  obtain ⟨hl1, h1⟩ := h1
  obtain ⟨hl2, h2⟩ := h2
  refine ⟨hl2.trans hl1, ?_⟩
  intro i sl h
  obtain ⟨sl', hb, hs1, he1, ht1⟩ := h1 i sl h
  obtain ⟨sl'', hc, hs2, he2, ht2⟩ := h2 i sl' hb
  exact ⟨sl'', hc, hs2.trans hs1, he2.trans he1, fun tid ht => ht2 tid (ht1 tid ht)⟩

theorem slotsMono_setSlotTask {l : List Slot} {i : Nat} {s : Slot} (tid : Nat)
    (h : l[i]? = some s) (hfree : s.task = none) :
    SlotsMono l (setSlotTask l i tid) := by
  refine ⟨length_setSlotTask l i tid, ?_⟩
  intro j sl hj
  by_cases hij : i = j
  · subst hij
    rw [h] at hj
    injection hj with hj
    subst hj
    refine ⟨{ s with task := some tid }, getElem?_setSlotTask_self l i tid s h, rfl, rfl, ?_⟩
    intro tid' ht
    rw [hfree] at ht
    cases ht
  · exact ⟨sl, by rw [getElem?_setSlotTask_ne l i j tid hij]; exact hj, rfl, rfl, fun _ ht => ht⟩

/-! Helper lemmas about the assignment fold. -/

theorem assign_fold_spec (tid : Nat) :
    ∀ (found : List (Nat × Slot)) (slots : List Slot),
      (∀ p ∈ found, slots[p.1]? = some p.2 ∧ p.2.task = none) →
      found.Pairwise (fun p q => p.1 < q.1) →
      SlotsMono slots (found.foldl (fun g p => setSlotTask g p.1 tid) slots) ∧
      ∀ tid', countAssigned (found.foldl (fun g p => setSlotTask g p.1 tid) slots) tid' =
        countAssigned slots tid' + if tid = tid' then found.length else 0 := by
  intro found
  induction found with
  | nil =>
    intro slots _ _
    exact ⟨slotsMono_refl slots, fun tid' => by simp⟩
  | cons q rest ih =>
    intro slots hmem hpw
    obtain ⟨hq, hqfree⟩ := hmem q (List.mem_cons_self q rest)
    have hmem' : ∀ p ∈ rest, (setSlotTask slots q.1 tid)[p.1]? = some p.2 ∧ p.2.task = none := by
      intro p hp
      have hlt : q.1 < p.1 := (List.pairwise_cons.1 hpw).1 p hp
      rw [getElem?_setSlotTask_ne slots q.1 p.1 tid (by omega)]
      exact hmem p (List.mem_cons_of_mem q hp)
    obtain ⟨ihmono, ihcount⟩ := ih (setSlotTask slots q.1 tid) hmem' (List.pairwise_cons.1 hpw).2
    constructor
    · rw [List.foldl_cons]
      exact slotsMono_trans (slotsMono_setSlotTask tid hq hqfree) ihmono
    · intro tid'
      rw [List.foldl_cons, ihcount tid',
        countAssigned_setSlotTask slots q.1 q.2 tid tid' hq hqfree]
      by_cases he : tid = tid'
      · simp [he]
        omega
      · simp [he]

/-- Facts about a successful top-level run search (`acc = []`, `lastSlotTime = null`)
over any sub-sequence `L` of the indexed grid. -/
theorem findRun_top (L : List (Nat × Slot)) (n : Nat) (slots : List Slot)
    (hL : List.Sublist L (idxSlots slots)) (hn : n ≤ (findRun L n [] none).length) :
    (findRun L n [] none).length = n ∧
    (∀ p ∈ findRun L n [] none, slots[p.1]? = some p.2 ∧ p.2.task = none) ∧
    (findRun L n [] none).Pairwise (fun p q => p.1 < q.1) ∧
    List.Chain' (fun p q => p.2.endTime = q.2.startTime) (findRun L n [] none) := by
  have hsub : List.Sublist (findRun L n [] none) L := by
    simpa using findRun_sublist L n [] none
  have hidx : List.Sublist (findRun L n [] none) (idxSlots slots) := hsub.trans hL
  have hget : ∀ p ∈ findRun L n [] none, slots[p.1]? = some p.2 := by
    intro p hp
    exact (mem_idxSlots (hidx.subset hp)).1
  have hpw : (findRun L n [] none).Pairwise (fun p q => p.1 < q.1) :=
    List.Pairwise.sublist hidx (pairwise_idxSlots slots)
  rcases findRun_spec L n [] none (by simp) List.chain'_nil
      (by intro t p ht; cases ht) (fun _ => rfl) with h | ⟨hlen, hfreeR, hchainR⟩
  · rw [h] at hn ⊢
    simp only [List.length_nil] at hn ⊢
    refine ⟨by omega, by simp, List.Pairwise.nil, List.chain'_nil⟩
  · exact ⟨hlen, fun p hp => ⟨hget p hp, hfreeR p hp⟩, hpw, hchainR⟩

/-- slotsNeededFor is zero exactly on a zero estimate. -/
theorem slotsNeededFor_eq_zero {te : Nat} : slotsNeededFor te = 0 ↔ te = 0 := by
  unfold slotsNeededFor
  omega

/-- Behaviour of `scheduleTaskWithDeadline`: identity fields of the task are
unchanged; on failure nothing changes; on success the grid evolves
monotonically, exactly `ceil(timeEstimate/30)` fresh slots get the task id and
no other id changes count, and `scheduledTime` is set iff the estimate is
positive. -/
theorem scheduleTaskWithDeadline_spec (t : Task) (slots : List Slot) :
    ((scheduleTaskWithDeadline t slots).2.2.id = t.id ∧
     (scheduleTaskWithDeadline t slots).2.2.timeEstimate = t.timeEstimate ∧
     (scheduleTaskWithDeadline t slots).2.2.deadline = t.deadline) ∧
    ((scheduleTaskWithDeadline t slots).1 = false →
       (scheduleTaskWithDeadline t slots).2.1 = slots ∧
       (scheduleTaskWithDeadline t slots).2.2 = t) ∧
    ((scheduleTaskWithDeadline t slots).1 = true →
       SlotsMono slots (scheduleTaskWithDeadline t slots).2.1 ∧
       (∀ tid', countAssigned (scheduleTaskWithDeadline t slots).2.1 tid' =
          countAssigned slots tid' +
            if t.id = tid' then slotsNeededFor t.timeEstimate else 0) ∧
       (scheduleTaskWithDeadline t slots).2.2.scheduledTime.isSome =
         decide (0 < t.timeEstimate)) := by
  rcases hdl : t.deadline with _ | dl
  · simp [scheduleTaskWithDeadline, hdl]
  · simp only [scheduleTaskWithDeadline, hdl]
    set ds := (idxSlots slots).filter
      (fun p => decide (p.2.task = none) && decide (p.2.endTime ≤ dl)) with hds
    by_cases h1 : ds.length = 0
    · simp [h1, hdl]
    · simp only [h1, if_false]
      set n := slotsNeededFor t.timeEstimate with hn
      set found := findRun ds n [] none with hfound
      by_cases h2 : n ≤ found.length
      · simp only [h2, if_true]
        obtain ⟨hlen, hmem, hpw, hchain⟩ :=
          findRun_top ds n slots (by rw [hds]; exact List.filter_sublist _) h2
        rw [← hfound] at hlen
        obtain ⟨hmono, hcount⟩ := assign_fold_spec t.id found slots hmem hpw
        refine ⟨by simp [assignTaskToSlots, hdl], by simp, fun _ => ?_⟩
        refine ⟨hmono, ?_, ?_⟩
        · intro tid'
          have := hcount tid'
          rw [hlen] at this
          simpa [assignTaskToSlots] using this
        · simp only [assignTaskToSlots]
          cases hf : found with
          | nil =>
            have : n = 0 := by rw [hf] at hlen; simpa using hlen.symm
            have hte : t.timeEstimate = 0 := slotsNeededFor_eq_zero.1 (by rw [← hn]; exact this)
            simp [hf, hte]
          | cons q qs =>
            have hne : n ≠ 0 := by
              intro h0
              rw [h0] at h2 hlen
              rw [hf] at hlen
              simp at hlen
            have hte : t.timeEstimate ≠ 0 := fun h0 => hne (by rw [hn, h0]; rfl)
            simp [hf, Nat.pos_of_ne_zero hte]
      · simp only [h2, if_false]
        simp [hdl]

/-- Behaviour of `scheduleTaskAnywhere`, mirroring `scheduleTaskWithDeadline_spec`. -/
theorem scheduleTaskAnywhere_spec (t : Task) (slots : List Slot) :
    ((scheduleTaskAnywhere t slots).2.2.id = t.id ∧
     (scheduleTaskAnywhere t slots).2.2.timeEstimate = t.timeEstimate ∧
     (scheduleTaskAnywhere t slots).2.2.deadline = t.deadline) ∧
    ((scheduleTaskAnywhere t slots).1 = false →
       (scheduleTaskAnywhere t slots).2.1 = slots ∧
       (scheduleTaskAnywhere t slots).2.2 = t) ∧
    ((scheduleTaskAnywhere t slots).1 = true →
       SlotsMono slots (scheduleTaskAnywhere t slots).2.1 ∧
       (∀ tid', countAssigned (scheduleTaskAnywhere t slots).2.1 tid' =
          countAssigned slots tid' +
            if t.id = tid' then slotsNeededFor t.timeEstimate else 0) ∧
       (scheduleTaskAnywhere t slots).2.2.scheduledTime.isSome =
         decide (0 < t.timeEstimate)) := by
  simp only [scheduleTaskAnywhere]
  set n := slotsNeededFor t.timeEstimate with hn
  set found := findRun (idxSlots slots) n [] none with hfound
  by_cases h2 : n ≤ found.length
  · simp only [h2, if_true]
    obtain ⟨hlen, hmem, hpw, hchain⟩ :=
      findRun_top (idxSlots slots) n slots (List.Sublist.refl _) h2
    rw [← hfound] at hlen
    obtain ⟨hmono, hcount⟩ := assign_fold_spec t.id found slots hmem hpw
    refine ⟨by simp [assignTaskToSlots], by simp, fun _ => ?_⟩
    refine ⟨hmono, ?_, ?_⟩
    · intro tid'
      have := hcount tid'
      rw [hlen] at this
      simpa [assignTaskToSlots] using this
    · simp only [assignTaskToSlots]
      cases hf : found with
      | nil =>
        have : n = 0 := by rw [hf] at hlen; simpa using hlen.symm
        have hte : t.timeEstimate = 0 := slotsNeededFor_eq_zero.1 (by rw [← hn]; exact this)
        simp [hf, hte]
      | cons q qs =>
        have hne : n ≠ 0 := by
          intro h0
          rw [h0] at h2 hlen
          rw [hf] at hlen
          simp at hlen
        have hte : t.timeEstimate ≠ 0 := fun h0 => hne (by rw [hn, h0]; rfl)
        simp [hf, Nat.pos_of_ne_zero hte]
  · simp only [h2, if_false]
    simp

/-! Invariant lemmas for the two placement passes. -/

/-- Pass 1 over a clean task list (no `scheduledTime` set, no slots assigned
to the listed ids yet, ids unique): identity data of the tasks is preserved
positionally, ids outside the list keep their slot counts, and each output
task occupies `ceil(timeEstimate/30)` slots when placed, none otherwise. -/
theorem pass1_spec :
    ∀ (ts : List Task) (slots : List Slot),
      (∀ t ∈ ts, t.scheduledTime = none) →
      (∀ t ∈ ts, countAssigned slots t.id = 0) →
      (ts.map (fun t => t.id)).Nodup →
      ((pass1 ts slots).2.map (fun t => (t.id, t.timeEstimate)) =
         ts.map (fun t => (t.id, t.timeEstimate))) ∧
      (∀ tid, tid ∉ ts.map (fun t => t.id) →
         countAssigned (pass1 ts slots).1 tid = countAssigned slots tid) ∧
      (∀ t' ∈ (pass1 ts slots).2,
         countAssigned (pass1 ts slots).1 t'.id =
           if t'.scheduledTime.isSome then slotsNeededFor t'.timeEstimate else 0) := by
  intro ts
  induction ts with
  | nil =>
    intro slots _ _ _
    exact ⟨rfl, fun tid _ => rfl, fun t' ht' => by simp [pass1] at ht'⟩
  | cons t rest ih =>
    intro slots hclean hz hnd
    have hclean_t : t.scheduledTime = none := hclean t (List.mem_cons_self t rest)
    have hz_t : countAssigned slots t.id = 0 := hz t (List.mem_cons_self t rest)
    have hnd' : (rest.map (fun u => u.id)).Nodup := (List.nodup_cons.1 (by simpa using hnd)).2
    have hid_not : t.id ∉ rest.map (fun u => u.id) := (List.nodup_cons.1 (by simpa using hnd)).1
    by_cases hd : t.deadline.isSome
    · obtain ⟨⟨hid, hte, hdl0⟩, hfail, hsucc⟩ := scheduleTaskWithDeadline_spec t slots
      by_cases hb : (scheduleTaskWithDeadline t slots).1 = true
      · obtain ⟨hmono, hcount, hsched⟩ := hsucc hb
        have hrest_clean : ∀ u ∈ rest, u.scheduledTime = none := fun u hu =>
          hclean u (List.mem_cons_of_mem t hu)
        have hrest_z : ∀ u ∈ rest, countAssigned (scheduleTaskWithDeadline t slots).2.1 u.id = 0 := by
          intro u hu
          have hne : t.id ≠ u.id := by
            intro he
            exact hid_not (he ▸ List.mem_map_of_mem (fun v => v.id) hu)
          rw [hcount u.id, if_neg hne, hz u (List.mem_cons_of_mem t hu)]
        obtain ⟨ihmap, ihout, ihin⟩ :=
          ih (scheduleTaskWithDeadline t slots).2.1 hrest_clean hrest_z hnd'
        simp only [pass1, hd, if_true]
        refine ⟨?_, ?_, ?_⟩
        · simp only [List.map_cons, ihmap, hid, hte]
        · intro tid htid
          have h1 : tid ∉ rest.map (fun u => u.id) := fun hm =>
            htid (List.mem_cons_of_mem _ hm)
          have h2 : t.id ≠ tid := fun he =>
            htid (he ▸ List.mem_map_of_mem (fun u => u.id) (List.mem_cons_self t rest))
          rw [ihout tid h1, hcount tid, if_neg h2]
          omega
        · intro t' ht'
          rcases List.mem_cons.1 ht' with ht' | ht'
          · rw [ht', hid, hte, ihout t.id hid_not, hcount t.id, if_pos rfl, hz_t, hsched]
            rcases Nat.eq_zero_or_pos t.timeEstimate with h0 | h0
            · rw [slotsNeededFor_eq_zero.2 h0]
              simp
            · simp [h0]
          · exact ihin t' ht'
      · have hb' : (scheduleTaskWithDeadline t slots).1 = false := by
          cases h : (scheduleTaskWithDeadline t slots).1
          · rfl
          · exact absurd h hb
        obtain ⟨hs_eq, ht_eq⟩ := hfail hb'
        have hrest_clean : ∀ u ∈ rest, u.scheduledTime = none := fun u hu =>
          hclean u (List.mem_cons_of_mem t hu)
        have hrest_z : ∀ u ∈ rest, countAssigned (scheduleTaskWithDeadline t slots).2.1 u.id = 0 := by
          intro u hu
          rw [hs_eq]
          exact hz u (List.mem_cons_of_mem t hu)
        obtain ⟨ihmap, ihout, ihin⟩ :=
          ih (scheduleTaskWithDeadline t slots).2.1 hrest_clean hrest_z hnd'
        simp only [pass1, hd, if_true]
        refine ⟨?_, ?_, ?_⟩
        · simp only [List.map_cons, ihmap, hid, hte]
        · intro tid htid
          rw [ihout tid (fun hm => htid (List.mem_cons_of_mem _ hm)), hs_eq]
        · intro t' ht'
          rcases List.mem_cons.1 ht' with ht' | ht'
          · rw [ht', ht_eq, ihout t.id hid_not, hs_eq, hz_t, hclean_t]
            simp
          · exact ihin t' ht'
    · have hrest_clean : ∀ u ∈ rest, u.scheduledTime = none := fun u hu =>
        hclean u (List.mem_cons_of_mem t hu)
      have hrest_z : ∀ u ∈ rest, countAssigned slots u.id = 0 := fun u hu =>
        hz u (List.mem_cons_of_mem t hu)
      obtain ⟨ihmap, ihout, ihin⟩ := ih slots hrest_clean hrest_z hnd'
      simp only [pass1, hd, Bool.false_eq_true, if_false]
      refine ⟨?_, ?_, ?_⟩
      · simp only [List.map_cons, ihmap]
      · intro tid htid
        exact ihout tid (fun hm => htid (List.mem_cons_of_mem _ hm))
      · intro t' ht'
        rcases List.mem_cons.1 ht' with ht' | ht'
        · rw [ht', ihout t.id hid_not, hz_t, hclean_t]
          simp
        · exact ihin t' ht'

/-- Pass 2 preserves the per-task slot-count invariant (a placed task holds
exactly `ceil(timeEstimate/30)` slots, an unplaced one none), assuming unique
ids. -/
theorem pass2_spec :
    ∀ (ts : List Task) (slots : List Slot),
      (∀ t ∈ ts, countAssigned slots t.id =
         if t.scheduledTime.isSome then slotsNeededFor t.timeEstimate else 0) →
      (ts.map (fun t => t.id)).Nodup →
      ((pass2 ts slots).2.map (fun t => (t.id, t.timeEstimate)) =
         ts.map (fun t => (t.id, t.timeEstimate))) ∧
      (∀ tid, tid ∉ ts.map (fun t => t.id) →
         countAssigned (pass2 ts slots).1 tid = countAssigned slots tid) ∧
      (∀ t' ∈ (pass2 ts slots).2,
         countAssigned (pass2 ts slots).1 t'.id =
           if t'.scheduledTime.isSome then slotsNeededFor t'.timeEstimate else 0) := by
  intro ts
  induction ts with
  | nil =>
    intro slots _ _
    exact ⟨rfl, fun tid _ => rfl, fun t' ht' => by simp [pass2] at ht'⟩
  | cons t rest ih =>
    intro slots hz hnd
    have hz_t := hz t (List.mem_cons_self t rest)
    have hnd' : (rest.map (fun u => u.id)).Nodup := (List.nodup_cons.1 (by simpa using hnd)).2
    have hid_not : t.id ∉ rest.map (fun u => u.id) := (List.nodup_cons.1 (by simpa using hnd)).1
    by_cases hs : t.scheduledTime.isSome
    · have hrest_z : ∀ u ∈ rest, countAssigned slots u.id =
          if u.scheduledTime.isSome then slotsNeededFor u.timeEstimate else 0 := fun u hu =>
        hz u (List.mem_cons_of_mem t hu)
      obtain ⟨ihmap, ihout, ihin⟩ := ih slots hrest_z hnd'
      simp only [pass2, hs, if_true]
      refine ⟨?_, ?_, ?_⟩
      · simp only [List.map_cons, ihmap]
      · intro tid htid
        exact ihout tid (fun hm => htid (List.mem_cons_of_mem _ hm))
      · intro t' ht'
        rcases List.mem_cons.1 ht' with ht' | ht'
        · rw [ht', ihout t.id hid_not, hz_t]
        · exact ihin t' ht'
    · obtain ⟨⟨hid, hte, hdl0⟩, hfail, hsucc⟩ := scheduleTaskAnywhere_spec t slots
      have hz_t0 : countAssigned slots t.id = 0 := by
        rw [hz_t, if_neg hs]
      by_cases hb : (scheduleTaskAnywhere t slots).1 = true
      · obtain ⟨hmono, hcount, hsched⟩ := hsucc hb
        have hrest_z : ∀ u ∈ rest, countAssigned (scheduleTaskAnywhere t slots).2.1 u.id =
            if u.scheduledTime.isSome then slotsNeededFor u.timeEstimate else 0 := by
          intro u hu
          have hne : t.id ≠ u.id := by
            intro he
            exact hid_not (he ▸ List.mem_map_of_mem (fun v => v.id) hu)
          rw [hcount u.id, if_neg hne, hz u (List.mem_cons_of_mem t hu)]
          omega
        obtain ⟨ihmap, ihout, ihin⟩ := ih (scheduleTaskAnywhere t slots).2.1 hrest_z hnd'
        simp only [pass2, hs, Bool.false_eq_true, if_false]
        refine ⟨?_, ?_, ?_⟩
        · simp only [List.map_cons, ihmap, hid, hte]
        · intro tid htid
          have h1 : tid ∉ rest.map (fun u => u.id) := fun hm =>
            htid (List.mem_cons_of_mem _ hm)
          have h2 : t.id ≠ tid := fun he =>
            htid (he ▸ List.mem_map_of_mem (fun u => u.id) (List.mem_cons_self t rest))
          rw [ihout tid h1, hcount tid, if_neg h2]
          omega
        · intro t' ht'
          rcases List.mem_cons.1 ht' with ht' | ht'
          · rw [ht', hid, hte, ihout t.id hid_not, hcount t.id, if_pos rfl, hz_t0, hsched]
            rcases Nat.eq_zero_or_pos t.timeEstimate with h0 | h0
            · rw [slotsNeededFor_eq_zero.2 h0]
              simp
            · simp [h0]
          · exact ihin t' ht'
      · have hb' : (scheduleTaskAnywhere t slots).1 = false := by
          cases h : (scheduleTaskAnywhere t slots).1
          · rfl
          · exact absurd h hb
        obtain ⟨hs_eq, ht_eq⟩ := hfail hb'
        have hrest_z : ∀ u ∈ rest, countAssigned (scheduleTaskAnywhere t slots).2.1 u.id =
            if u.scheduledTime.isSome then slotsNeededFor u.timeEstimate else 0 := by
          intro u hu
          rw [hs_eq]
          exact hz u (List.mem_cons_of_mem t hu)
        obtain ⟨ihmap, ihout, ihin⟩ := ih (scheduleTaskAnywhere t slots).2.1 hrest_z hnd'
        simp only [pass2, hs, Bool.false_eq_true, if_false]
        refine ⟨?_, ?_, ?_⟩
        · simp only [List.map_cons, ihmap, hid, hte]
        · intro tid htid
          rw [ihout tid (fun hm => htid (List.mem_cons_of_mem _ hm)), hs_eq]
        · intro t' ht'
          rcases List.mem_cons.1 ht' with ht' | ht'
          · rw [ht', ht_eq, ihout t.id hid_not, hs_eq, hz_t]
          · exact ihin t' ht'

/-! Helper lemmas about the generated grid. -/

theorem daySlots_mem (a b : Int) :
    ∀ s ∈ daySlots a b,
      a ≤ s.startTime ∧ s.endTime = s.startTime + 30 ∧ s.endTime ≤ b ∧ s.task = none := by
  induction a, b using daySlots.induct with
  | case1 a b h ih =>
    intro s hs
    rw [daySlots, dif_pos h] at hs
    rcases List.mem_append.1 hs with hs | hs
    · by_cases h30 : a + 30 ≤ b
      · rw [if_pos h30] at hs
        simp only [List.mem_singleton] at hs
        subst hs
        refine ⟨le_refl a, rfl, h30, rfl⟩
      · rw [if_neg h30] at hs
        simp at hs
    · obtain ⟨h1, h2, h3, h4⟩ := ih s hs
      exact ⟨by omega, h2, h3, h4⟩
  | case2 a b h =>
    intro s hs
    rw [daySlots, dif_neg h] at hs
    simp at hs

theorem daySlots_length :
    ∀ (k : Nat) (a : Int), (daySlots a (a + 30 * (k : Int))).length = k := by
  intro k
  induction k with
  | zero =>
    intro a
    rw [daySlots, dif_neg (by push_cast; omega)]
    rfl
  | succ k ih =>
    intro a
    rw [daySlots, dif_pos (by push_cast; omega), if_pos (by push_cast; omega)]
    have harg : a + 30 * (((k + 1 : Nat)) : Int) = (a + 30) + 30 * (k : Int) := by
      push_cast
      ring
    rw [harg]
    simp [ih (a + 30)]

theorem mem_daySlotsFor {st : SchedulerSettings} {d0 day : Nat} {s : Slot}
    (h : s ∈ daySlotsFor st d0 day) :
    st.workingDays.contains ((d0 + day) % 7) = true ∧
    ((d0 + day : Nat) : Int) * 1440 + startMinutes st ≤ s.startTime ∧
    s.endTime = s.startTime + 30 ∧
    s.endTime ≤ ((d0 + day : Nat) : Int) * 1440 + endMinutes st ∧ s.task = none := by
  unfold daySlotsFor at h
  by_cases hw : st.workingDays.contains ((d0 + day) % 7) = true
  · rw [if_pos hw] at h
    obtain ⟨h1, h2, h3, h4⟩ := daySlots_mem _ _ s h
    exact ⟨hw, h1, h2, h3, h4⟩
  · rw [if_neg hw] at h
    simp at h

theorem generateTimeSlots_mem {st : SchedulerSettings} {d0 days : Nat} {s : Slot}
    (h : s ∈ generateTimeSlots st d0 days) :
    s.endTime = s.startTime + 30 ∧ s.task = none := by
  unfold generateTimeSlots at h
  rw [List.mem_flatMap] at h
  obtain ⟨day, _, hs⟩ := h
  obtain ⟨_, _, h2, _, h4⟩ := mem_daySlotsFor hs
  exact ⟨h2, h4⟩

theorem daySlotsFor_length (st : SchedulerSettings) (d0 day : Nat) (k : Nat)
    (hk : endMinutes st = startMinutes st + 30 * (k : Int)) :
    (daySlotsFor st d0 day).length =
      if st.workingDays.contains ((d0 + day) % 7) then k else 0 := by
  unfold daySlotsFor
  by_cases hw : st.workingDays.contains ((d0 + day) % 7) = true
  · rw [if_pos hw, if_pos hw]
    have harg : ((d0 + day : Nat) : Int) * 1440 + endMinutes st =
        (((d0 + day : Nat) : Int) * 1440 + startMinutes st) + 30 * (k : Int) := by
      rw [hk]
      ring
    rw [harg]
    exact daySlots_length k _
  · rw [if_neg hw, if_neg hw]
    rfl

theorem generateTimeSlots_length (st : SchedulerSettings) (d0 : Nat) (k : Nat)
    (hk : endMinutes st = startMinutes st + 30 * (k : Int)) :
    ∀ days : Nat, (generateTimeSlots st d0 days).length =
      ((List.range days).filter
        (fun day => st.workingDays.contains ((d0 + day) % 7))).length * k := by
  intro days
  induction days with
  | zero => simp [generateTimeSlots]
  | succ d ih =>
    rw [generateTimeSlots, List.range_succ, List.flatMap_append, List.length_append,
      ← generateTimeSlots, ih, List.filter_append, List.length_append]
    simp only [List.flatMap_cons, List.flatMap_nil, List.append_nil,
      List.filter_cons, List.filter_nil]
    rw [daySlotsFor_length st d0 d k hk]
    by_cases hw : st.workingDays.contains ((d0 + d) % 7) = true
    · rw [if_pos hw, if_pos hw]
      simp [Nat.add_mul]
    · rw [if_neg hw, if_neg hw]
      simp

/-! Helper lemmas about the ranking comparator. -/

theorem compareTasks_le_total (now : Int) (a b : Task) :
    compareTasks now a b ≤ 0 ∨ compareTasks now b a ≤ 0 := by
  unfold compareTasks
  cases hua : isUrgent now a <;> cases hub : isUrgent now b <;>
    rcases hda : a.deadline with _ | da <;> rcases hdb : b.deadline with _ | db <;>
      simp <;> (try split_ifs) <;> omega

theorem compareTasks_le_trans {now : Int} {a b c : Task}
    (hab : compareTasks now a b ≤ 0) (hbc : compareTasks now b c ≤ 0) :
    compareTasks now a c ≤ 0 := by
  unfold compareTasks at hab hbc ⊢
  cases hua : isUrgent now a <;> cases hub : isUrgent now b <;> cases huc : isUrgent now c <;>
    rw [hua, hub] at hab <;> rw [hub, huc] at hbc <;>
    rcases hda : a.deadline with _ | da <;> rcases hdb : b.deadline with _ | db <;>
      rcases hdc : c.deadline with _ | dc <;>
      rw [hda, hdb] at hab <;> rw [hdb, hdc] at hbc <;>
      simp at hab hbc ⊢ <;> (try split_ifs at hab hbc ⊢) <;> omega

theorem taskLE_total (now : Int) : ∀ a b : Task, taskLE now a b || taskLE now b a := by
  intro a b
  unfold taskLE
  rcases compareTasks_le_total now a b with h | h <;> simp [h]

theorem taskLE_trans (now : Int) :
    ∀ a b c : Task, taskLE now a b → taskLE now b c → taskLE now a c := by
  intro a b c hab hbc
  unfold taskLE at hab hbc ⊢
  simp only [decide_eq_true_eq] at hab hbc ⊢
  exact compareTasks_le_trans hab hbc

/-! Helper lemmas for run monotonicity. -/

theorem pass1_append :
    ∀ (xs ys : List Task) (slots : List Slot),
      pass1 (xs ++ ys) slots =
        ((pass1 ys (pass1 xs slots).1).1,
         (pass1 xs slots).2 ++ (pass1 ys (pass1 xs slots).1).2) := by
  intro xs
  induction xs with
  | nil => intro ys slots; simp [pass1]
  | cons t xs ih =>
    intro ys slots
    by_cases hd : t.deadline.isSome
    · simp only [List.cons_append, pass1, hd, if_true, List.append_eq, ih]
    · simp only [List.cons_append, pass1, hd, Bool.false_eq_true, if_false,
        List.append_eq, ih]

theorem pass2_append :
    ∀ (xs ys : List Task) (slots : List Slot),
      pass2 (xs ++ ys) slots =
        ((pass2 ys (pass2 xs slots).1).1,
         (pass2 xs slots).2 ++ (pass2 ys (pass2 xs slots).1).2) := by
  intro xs
  induction xs with
  | nil => intro ys slots; simp [pass2]
  | cons t xs ih =>
    intro ys slots
    by_cases hs : t.scheduledTime.isSome
    · simp only [List.cons_append, pass2, hs, if_true, List.append_eq, ih]
    · simp only [List.cons_append, pass2, hs, Bool.false_eq_true, if_false,
        List.append_eq, ih]

theorem pass1_length :
    ∀ (ts : List Task) (slots : List Slot), (pass1 ts slots).2.length = ts.length := by
  intro ts
  induction ts with
  | nil => intro slots; rfl
  | cons t rest ih =>
    intro slots
    by_cases hd : t.deadline.isSome
    · simp [pass1, hd, ih]
    · simp [pass1, hd, ih]

theorem pass2_length :
    ∀ (ts : List Task) (slots : List Slot), (pass2 ts slots).2.length = ts.length := by
  intro ts
  induction ts with
  | nil => intro slots; rfl
  | cons t rest ih =>
    intro slots
    by_cases hs : t.scheduledTime.isSome
    · simp [pass2, hs, ih]
    · simp [pass2, hs, ih]

theorem pass1_slotsMono :
    ∀ (ts : List Task) (slots : List Slot), SlotsMono slots (pass1 ts slots).1 := by
  intro ts
  induction ts with
  | nil => intro slots; exact slotsMono_refl slots
  | cons t rest ih =>
    intro slots
    by_cases hd : t.deadline.isSome
    · simp only [pass1, hd, if_true]
      obtain ⟨_, hfail, hsucc⟩ := scheduleTaskWithDeadline_spec t slots
      by_cases hb : (scheduleTaskWithDeadline t slots).1 = true
      · exact slotsMono_trans (hsucc hb).1 (ih _)
      · have hb' : (scheduleTaskWithDeadline t slots).1 = false := by
          cases h : (scheduleTaskWithDeadline t slots).1
          · rfl
          · exact absurd h hb
        rw [(hfail hb').1]
        exact ih _
    · simp only [pass1, hd, Bool.false_eq_true, if_false]
      exact ih slots

theorem pass2_slotsMono :
    ∀ (ts : List Task) (slots : List Slot), SlotsMono slots (pass2 ts slots).1 := by
  intro ts
  induction ts with
  | nil => intro slots; exact slotsMono_refl slots
  | cons t rest ih =>
    intro slots
    by_cases hs : t.scheduledTime.isSome
    · simp only [pass2, hs, if_true]
      exact ih slots
    · simp only [pass2, hs, Bool.false_eq_true, if_false]
      obtain ⟨_, hfail, hsucc⟩ := scheduleTaskAnywhere_spec t slots
      by_cases hb : (scheduleTaskAnywhere t slots).1 = true
      · exact slotsMono_trans (hsucc hb).1 (ih _)
      · have hb' : (scheduleTaskAnywhere t slots).1 = false := by
          cases h : (scheduleTaskAnywhere t slots).1
          · rfl
          · exact absurd h hb
        rw [(hfail hb').1]
        exact ih _

theorem pass2_tasksMono :
    ∀ (ts : List Task) (slots : List Slot), TasksMono ts (pass2 ts slots).2 := by
  intro ts
  induction ts with
  | nil =>
    intro slots
    exact ⟨rfl, fun j t v h _ => by simp at h⟩
  | cons t rest ih =>
    intro slots
    by_cases hs : t.scheduledTime.isSome
    · simp only [pass2, hs, if_true]
      refine ⟨by simp [(ih slots).1], ?_⟩
      intro j u v hj hv
      cases j with
      | zero =>
        simp only [List.getElem?_cons_zero, Option.some.injEq] at hj
        subst hj
        exact ⟨t, by simp, hv⟩
      | succ j =>
        simp only [List.getElem?_cons_succ] at hj ⊢
        exact (ih slots).2 j u v hj hv
    · simp only [pass2, hs, Bool.false_eq_true, if_false]
      refine ⟨by simp [(ih _).1], ?_⟩
      intro j u v hj hv
      cases j with
      | zero =>
        simp only [List.getElem?_cons_zero, Option.some.injEq] at hj
        subst hj
        rw [hv] at hs
        simp at hs
      | succ j =>
        simp only [List.getElem?_cons_succ] at hj ⊢
        exact (ih _).2 j u v hj hv

/-- Total walk of a contiguous block of 30-minute slots: the last slot ends
exactly `30 * length` after the first slot starts. -/
theorem chain_block :
    ∀ (r : List (Nat × Slot)),
      List.Chain' (fun p q => p.2.endTime = q.2.startTime) r →
      (∀ p ∈ r, p.2.endTime = p.2.startTime + 30) →
      ∀ p q, r.head? = some p → r.getLast? = some q →
        q.2.endTime = p.2.startTime + 30 * (r.length : Int) := by
  intro r
  induction r with
  | nil => intro _ _ p q hp _; simp at hp
  | cons p0 rest ih =>
    intro hchain hwidth p q hp hq
    simp only [List.head?_cons, Option.some.injEq] at hp
    subst hp
    cases rest with
    | nil =>
      simp only [List.getLast?_singleton, Option.some.injEq] at hq
      subst hq
      have := hwidth p0 (List.mem_singleton.2 rfl)
      simp only [List.length_singleton]
      omega
    | cons p1 rest' =>
      have hlink : p0.2.endTime = p1.2.startTime := (List.chain'_cons.1 hchain).1
      have hchain' : List.Chain' (fun p q => p.2.endTime = q.2.startTime) (p1 :: rest') :=
        (List.chain'_cons.1 hchain).2
      have hq' : (p1 :: rest').getLast? = some q := by
        rw [← hq]
        rfl
      have := ih hchain' (fun u hu => hwidth u (List.mem_cons_of_mem _ hu)) p1 q rfl hq'
      have hw := hwidth p0 (List.mem_cons_self _ _)
      simp only [List.length_cons] at this ⊢
      push_cast at this ⊢
      omega

/-- Sorting permutes the task list. -/
theorem sortTasksByPriority_perm (now : Int) (ts : List Task) :
    (sortTasksByPriority now ts).Perm ts :=
  List.mergeSort_perm ts (taskLE now)

/-! Claim theorems. -/

/-- C2: for every slot sequence and every positive count, `findConsecutiveSlots`
returns either the empty sequence or a sequence of exactly `count` slots, each
with no task assigned, in which every adjacent pair satisfies
`slots[i].endTime = slots[i+1].startTime`. -/
theorem c2_findConsecutiveSlots_contract (slots : List Slot) (count : Nat)
    (_hpos : 0 < count) :
    findConsecutiveSlots slots count = [] ∨
      ((findConsecutiveSlots slots count).length = count ∧
       (∀ s ∈ findConsecutiveSlots slots count, s.task = none) ∧
       List.Chain' (fun a b => a.endTime = b.startTime)
         (findConsecutiveSlots slots count)) := by
  unfold findConsecutiveSlots
  rcases findRun_spec (idxSlots slots) count [] none (by simp) List.chain'_nil
      (by intro t p ht; cases ht) (fun _ => rfl) with h | ⟨hlen, hfree, hchain⟩
  · left
    rw [h]
    rfl
  · right
    refine ⟨by simp [hlen], ?_, ?_⟩
    · intro s hs
      rw [List.mem_map] at hs
      obtain ⟨p, hp, rfl⟩ := hs
      exact hfree p hp
    · exact (List.chain'_map (fun p : Nat × Slot => p.2)).2 hchain

/-- Witness for C2 at a concrete two-slot grid and count 2. -/
theorem c2_witness :
    findConsecutiveSlots [⟨0, 30, none⟩, ⟨30, 60, none⟩] 2 = [] ∨
      ((findConsecutiveSlots [⟨0, 30, none⟩, ⟨30, 60, none⟩] 2).length = 2 ∧
       (∀ s ∈ findConsecutiveSlots [⟨0, 30, none⟩, ⟨30, 60, none⟩] 2, s.task = none) ∧
       List.Chain' (fun a b => a.endTime = b.startTime)
         (findConsecutiveSlots [⟨0, 30, none⟩, ⟨30, 60, none⟩] 2)) :=
  c2_findConsecutiveSlots_contract [⟨0, 30, none⟩, ⟨30, 60, none⟩] 2 (by decide)

/-- C6: with a fixed `now` threaded through the comparator, ranking is
idempotent: re-ranking an already-ranked list returns the same sequence. -/
theorem c6_rank_idempotent (now : Int) (tasks : List Task) :
    sortTasksByPriority now (sortTasksByPriority now tasks) =
      sortTasksByPriority now tasks := by
  unfold sortTasksByPriority
  exact List.mergeSort_of_sorted
    (List.sorted_mergeSort (fun a b c => taskLE_trans now a b c) (taskLE_total now) tasks)

/-- C7: a task whose deadline is less than 48 hours away sorts strictly before
any task without a deadline, whatever the priorities: the comparator returns
-1 one way and 1 the other. -/
theorem c7_urgency_precedence (now d : Int) (a b : Task)
    (hda : a.deadline = some d) (hurg : d - now < 48 * 60)
    (hdb : b.deadline = none) :
    compareTasks now a b = -1 ∧ compareTasks now b a = 1 := by
  have hua : isUrgent now a = true := by
    unfold isUrgent
    rw [hda]
    simpa using hurg
  have hub : isUrgent now b = false := by
    unfold isUrgent
    rw [hdb]
  refine ⟨?_, ?_⟩
  · unfold compareTasks
    rw [hua, hub]
    simp
  · unfold compareTasks
    rw [hua, hub]
    simp

/-- Witness for C7: deadline one hour away versus a priority-1 task without a
deadline. -/
theorem c7_witness :
    compareTasks 0 ⟨1, 5, 30, some 60, none⟩ ⟨2, 1, 30, none, none⟩ = -1 ∧
    compareTasks 0 ⟨2, 1, 30, none, none⟩ ⟨1, 5, 30, some 60, none⟩ = 1 :=
  c7_urgency_precedence 0 60 ⟨1, 5, 30, some 60, none⟩ ⟨2, 1, 30, none, none⟩
    rfl (by decide) rfl

/-- C9: slots are hard-coded to 30 minutes regardless of the settings, and
both placement helpers size a placement as `ceil(timeEstimate/30)` slots:
`slotsNeededFor` is exactly ceiling division by 30 (characterised by its
bounds), and a successful helper call assigns exactly that many slots. -/
theorem c9_hardcoded_slot_width :
    (∀ (st : SchedulerSettings) (d0 days : Nat),
       ∀ s ∈ generateTimeSlots st d0 days, s.endTime = s.startTime + 30) ∧
    (∀ te : Nat, te ≤ 30 * slotsNeededFor te ∧ 30 * slotsNeededFor te < te + 30) ∧
    (∀ (t : Task) (slots : List Slot), (scheduleTaskWithDeadline t slots).1 = true →
       countAssigned (scheduleTaskWithDeadline t slots).2.1 t.id =
         countAssigned slots t.id + slotsNeededFor t.timeEstimate) ∧
    (∀ (t : Task) (slots : List Slot), (scheduleTaskAnywhere t slots).1 = true →
       countAssigned (scheduleTaskAnywhere t slots).2.1 t.id =
         countAssigned slots t.id + slotsNeededFor t.timeEstimate) := by
  refine ⟨?_, ?_, ?_, ?_⟩
  · intro st d0 days s hs
    exact (generateTimeSlots_mem hs).1
  · intro te
    unfold slotsNeededFor
    omega
  · intro t slots hb
    have h := ((scheduleTaskWithDeadline_spec t slots).2.2 hb).2.1 t.id
    rw [h, if_pos rfl]
  · intro t slots hb
    have h := ((scheduleTaskAnywhere_spec t slots).2.2 hb).2.1 t.id
    rw [h, if_pos rfl]

/-- Witness for C9: the ceiling bounds at 45 minutes and an actual successful
deadline placement assigning 2 slots. -/
theorem c9_witness :
    (45 ≤ 30 * slotsNeededFor 45 ∧ 30 * slotsNeededFor 45 < 45 + 30) ∧
    countAssigned (scheduleTaskWithDeadline ⟨1, 1, 60, some 60, none⟩
        [⟨0, 30, none⟩, ⟨30, 60, none⟩]).2.1 1 =
      countAssigned [⟨0, 30, none⟩, ⟨30, 60, none⟩] 1 + slotsNeededFor 60 :=
  ⟨c9_hardcoded_slot_width.2.1 45,
   c9_hardcoded_slot_width.2.2.1 ⟨1, 1, 60, some 60, none⟩
     [⟨0, 30, none⟩, ⟨30, 60, none⟩] (by decide)⟩

/-- C10: a task whose deadline is already past counts as urgent in the
comparator (the difference is negative, below the 48-hour threshold), so it
sorts strictly before every non-urgent task, although `Task.isDueSoon`
classifies the same task as not due soon. -/
theorem c10_past_deadline_urgent (now d : Int) (a b : Task)
    (hda : a.deadline = some d) (hpast : d < now)
    (hub : isUrgent now b = false) :
    isUrgent now a = true ∧ compareTasks now a b = -1 ∧
      Task.isDueSoon now a = false := by
  have hua : isUrgent now a = true := by
    unfold isUrgent
    rw [hda]
    simp only [decide_eq_true_eq]
    omega
  refine ⟨hua, ?_, ?_⟩
  · unfold compareTasks
    rw [hua, hub]
    simp
  · unfold Task.isDueSoon
    rw [hda]
    have : ¬(now < d) := by omega
    simp [this]

/-- Witness for C10: deadline one hour in the past against a priority-1 task
without a deadline. -/
theorem c10_witness :
    isUrgent 100 ⟨1, 5, 30, some 40, none⟩ = true ∧
    compareTasks 100 ⟨1, 5, 30, some 40, none⟩ ⟨2, 1, 30, none, none⟩ = -1 ∧
    Task.isDueSoon 100 ⟨1, 5, 30, some 40, none⟩ = false :=
  c10_past_deadline_urgent 100 40 ⟨1, 5, 30, some 40, none⟩ ⟨2, 1, 30, none, none⟩
    rfl (by decide) (by decide)

/-- C1: whenever pass 1 places a task (`scheduleTaskWithDeadline` succeeds)
over a well-formed generated grid (every slot 30 minutes wide) and the task
has a positive time estimate, the `scheduledTime` it sets plus the task's
time estimate in minutes is at most the task's deadline. -/
theorem c1_deadline_compliance (t : Task) (slots : List Slot) (dl : Int)
    (hdl : t.deadline = some dl) (hte : 0 < t.timeEstimate)
    (hwidth : ∀ s ∈ slots, s.endTime = s.startTime + 30)
    (hsucc : (scheduleTaskWithDeadline t slots).1 = true) :
    ∃ v : Int, (scheduleTaskWithDeadline t slots).2.2.scheduledTime = some v ∧
      v + (t.timeEstimate : Int) ≤ dl := by
  simp only [scheduleTaskWithDeadline, hdl] at hsucc ⊢
  set ds := (idxSlots slots).filter
    (fun p => decide (p.2.task = none) && decide (p.2.endTime ≤ dl)) with hds
  by_cases h1 : ds.length = 0
  · simp [h1] at hsucc
  · simp only [h1, if_false] at hsucc ⊢
    set n := slotsNeededFor t.timeEstimate with hn
    set found := findRun ds n [] none with hfound
    by_cases h2 : n ≤ found.length
    · simp only [h2, if_true] at hsucc ⊢
      obtain ⟨hlen, hmem, hpw, hchain⟩ :=
        findRun_top ds n slots (by rw [hds]; exact List.filter_sublist _) h2
      rw [← hfound] at hlen hmem hpw hchain
      have hsubds : List.Sublist found ds := by
        rw [hfound]
        simpa using findRun_sublist ds n [] none
      have hdead : ∀ p ∈ found, p.2.endTime ≤ dl := by
        intro p hp
        have hpds : p ∈ ds := hsubds.subset hp
        rw [hds, List.mem_filter] at hpds
        have := hpds.2
        simp only [Bool.and_eq_true, decide_eq_true_eq] at this
        exact this.2
      have hwidths : ∀ p ∈ found, p.2.endTime = p.2.startTime + 30 := by
        intro p hp
        have hpidx : p ∈ idxSlots slots :=
          (List.filter_sublist _).subset ((hds ▸ hsubds).subset hp)
        exact hwidth p.2 (mem_idxSlots hpidx).2
      have hne : found ≠ [] := by
        intro h0
        rw [h0] at hlen
        simp only [List.length_nil] at hlen
        rw [hn] at hlen
        unfold slotsNeededFor at hlen
        omega
      cases hf : found with
      | nil => exact absurd hf hne
      | cons f fs =>
        have hhead : found.head? = some f := by rw [hf]; rfl
        have hlast : found.getLast? = some (found.getLast hne) :=
          List.getLast?_eq_getLast found hne
        have hlastmem : found.getLast hne ∈ found := List.getLast_mem hne
        have hblock := chain_block found hchain hwidths f (found.getLast hne) hhead hlast
        have hlastdl : (found.getLast hne).2.endTime ≤ dl := hdead _ hlastmem
        have htebound : (t.timeEstimate : Int) ≤ 30 * (n : Int) := by
          rw [hn]
          unfold slotsNeededFor
          push_cast
          omega
        refine ⟨f.2.startTime, ?_, ?_⟩
        · simp [assignTaskToSlots, hf]
        · rw [hlen] at hblock
          omega
    · simp [h2] at hsucc

/-- Witness for C1: a 60-minute task with deadline 60 placed on a fresh
two-slot grid; its scheduled start 0 plus 60 stays within the deadline. -/
theorem c1_witness :
    ∃ v : Int,
      (scheduleTaskWithDeadline ⟨1, 1, 60, some 60, none⟩
          [⟨0, 30, none⟩, ⟨30, 60, none⟩]).2.2.scheduledTime = some v ∧
        v + ((60 : Nat) : Int) ≤ 60 :=
  c1_deadline_compliance ⟨1, 1, 60, some 60, none⟩ [⟨0, 30, none⟩, ⟨30, 60, none⟩] 60
    rfl (by decide) (by decide) (by decide)

/-- C5: when the working-hours window spans exactly `30 * k` minutes, every
working day in the horizon contributes exactly `k` slots (`(end-start)/30`)
and every non-working day contributes zero; no emitted slot crosses its
day's end-of-window boundary, and each is a full 30-minute slot. -/
theorem c5_grid_correctness (st : SchedulerSettings) (d0 days k : Nat)
    (hwin : endMinutes st = startMinutes st + 30 * (k : Int)) :
    (∀ day, day < days →
       (daySlotsFor st d0 day).length =
         if st.workingDays.contains ((d0 + day) % 7) then k else 0) ∧
    ((generateTimeSlots st d0 days).length =
       ((List.range days).filter
         (fun day => st.workingDays.contains ((d0 + day) % 7))).length * k) ∧
    (∀ day : Nat, ∀ s ∈ daySlotsFor st d0 day,
       ((d0 + day : Nat) : Int) * 1440 + startMinutes st ≤ s.startTime ∧
       s.endTime ≤ ((d0 + day : Nat) : Int) * 1440 + endMinutes st) ∧
    (∀ s ∈ generateTimeSlots st d0 days, s.endTime = s.startTime + 30) := by
  refine ⟨?_, ?_, ?_, ?_⟩
  · intro day _
    exact daySlotsFor_length st d0 day k hwin
  · exact generateTimeSlots_length st d0 k hwin days
  · intro day s hs
    obtain ⟨_, h1, _, h2, _⟩ := mem_daySlotsFor hs
    exact ⟨h1, h2⟩
  · intro s hs
    exact (generateTimeSlots_mem hs).1

/-- Witness for C5: a 9:00-10:30 window (k = 3 slots) over a two-day horizon
with only weekday 0 working. -/
theorem c5_witness :
    (∀ day, day < 2 →
       (daySlotsFor ⟨9, 0, 10, 30, [0]⟩ 0 day).length =
         if List.contains [0] ((0 + day) % 7) then 3 else 0) ∧
    ((generateTimeSlots ⟨9, 0, 10, 30, [0]⟩ 0 2).length =
       ((List.range 2).filter
         (fun day => List.contains [0] ((0 + day) % 7))).length * 3) ∧
    (∀ day : Nat, ∀ s ∈ daySlotsFor ⟨9, 0, 10, 30, [0]⟩ 0 day,
       ((0 + day : Nat) : Int) * 1440 + startMinutes ⟨9, 0, 10, 30, [0]⟩ ≤ s.startTime ∧
       s.endTime ≤ ((0 + day : Nat) : Int) * 1440 + endMinutes ⟨9, 0, 10, 30, [0]⟩) ∧
    (∀ s ∈ generateTimeSlots ⟨9, 0, 10, 30, [0]⟩ 0 2, s.endTime = s.startTime + 30) :=
  c5_grid_correctness ⟨9, 0, 10, 30, [0]⟩ 0 2 3 (by decide)

/-! Helper lemmas about empty inputs. -/

theorem scheduleTaskWithDeadline_nil (t : Task) :
    scheduleTaskWithDeadline t [] = (false, [], t) := by
  rcases hdl : t.deadline with _ | dl
  · simp [scheduleTaskWithDeadline, hdl]
  · simp [scheduleTaskWithDeadline, hdl, idxSlots, idxFrom]

theorem scheduleTaskAnywhere_nil (t : Task) (hte : 0 < t.timeEstimate) :
    scheduleTaskAnywhere t [] = (false, [], t) := by
  have hn : ¬(slotsNeededFor t.timeEstimate ≤
      (findRun (idxSlots []) (slotsNeededFor t.timeEstimate) [] none).length) := by
    simp only [idxSlots, idxFrom, findRun, List.length_nil]
    unfold slotsNeededFor
    omega
  simp only [scheduleTaskAnywhere, hn, if_false]

theorem pass1_nil_slots : ∀ ts : List Task, pass1 ts [] = ([], ts) := by
  intro ts
  induction ts with
  | nil => rfl
  | cons t rest ih =>
    by_cases hd : t.deadline.isSome
    · simp [pass1, hd, scheduleTaskWithDeadline_nil, ih]
    · simp [pass1, hd, ih]

theorem pass2_nil_slots :
    ∀ ts : List Task, (∀ t ∈ ts, 0 < t.timeEstimate) → pass2 ts [] = ([], ts) := by
  intro ts
  induction ts with
  | nil => intro _; rfl
  | cons t rest ih =>
    intro hte
    by_cases hs : t.scheduledTime.isSome
    · simp [pass2, hs, ih (fun u hu => hte u (List.mem_cons_of_mem t hu))]
    · simp [pass2, hs, scheduleTaskAnywhere_nil t (hte t (List.mem_cons_self t rest)),
        ih (fun u hu => hte u (List.mem_cons_of_mem t hu))]

/-- C8: degenerate inputs are harmless no-ops.  Running the two placement
passes over an empty slot grid leaves the task list exactly as sorted, with
every `scheduledTime` still unset; running over an empty task list leaves any
grid untouched, also via `scheduleTasks` itself. -/
theorem c8_degenerate_inputs (now : Int) (tasks : List Task)
    (st : SchedulerSettings) (slots : List Slot) (d0 days : Nat)
    (hclean : ∀ t ∈ tasks, t.scheduledTime = none)
    (hte : ∀ t ∈ tasks, 0 < t.timeEstimate) :
    runPasses now tasks [] = ([], sortTasksByPriority now tasks) ∧
    (∀ t' ∈ (runPasses now tasks []).2, t'.scheduledTime = none) ∧
    runPasses now [] slots = (slots, []) ∧
    scheduleTasks st now [] d0 days = (generateTimeSlots st d0 days, []) := by
  have hperm := sortTasksByPriority_perm now tasks
  have hte' : ∀ t ∈ sortTasksByPriority now tasks, 0 < t.timeEstimate := fun t ht =>
    hte t (hperm.subset ht)
  have hclean' : ∀ t ∈ sortTasksByPriority now tasks, t.scheduledTime = none := fun t ht =>
    hclean t (hperm.subset ht)
  have hrun : runPasses now tasks [] = ([], sortTasksByPriority now tasks) := by
    simp only [runPasses]
    rw [pass1_nil_slots]
    exact pass2_nil_slots _ hte'
  refine ⟨hrun, ?_, ?_, ?_⟩
  · intro t' ht'
    rw [hrun] at ht'
    exact hclean' t' ht'
  · simp only [runPasses, sortTasksByPriority, List.mergeSort_nil]
    rfl
  · simp only [scheduleTasks, runPasses, sortTasksByPriority, List.mergeSort_nil]
    rfl

/-- Witness for C8: one 30-minute task against the empty grid, and the empty
task list against a one-slot grid. -/
theorem c8_witness :
    runPasses 0 [⟨1, 2, 30, none, none⟩] [] =
        ([], sortTasksByPriority 0 [⟨1, 2, 30, none, none⟩]) ∧
    (∀ t' ∈ (runPasses 0 [⟨1, 2, 30, none, none⟩] []).2, t'.scheduledTime = none) ∧
    runPasses 0 [] [⟨0, 30, none⟩] = ([⟨0, 30, none⟩], []) ∧
    scheduleTasks ⟨9, 0, 17, 0, [1]⟩ 0 [] 0 1 =
      (generateTimeSlots ⟨9, 0, 17, 0, [1]⟩ 0 1, []) :=
  c8_degenerate_inputs 0 [⟨1, 2, 30, none, none⟩] ⟨9, 0, 17, 0, [1]⟩ [⟨0, 30, none⟩] 0 1
    (by decide) (by decide)

/-! Helper lemmas on counts over a free grid. -/

theorem countAssigned_of_free {g : List Slot} (hfree : ∀ s ∈ g, s.task = none)
    (tid : Nat) : countAssigned g tid = 0 := by
  unfold countAssigned
  rw [List.countP_eq_zero]
  intro s hs
  simp [hfree s hs]

theorem countAssigned_pos {g : List Slot} {s : Slot} {tid : Nat}
    (hs : s ∈ g) (ht : s.task = some tid) : 0 < countAssigned g tid := by
  unfold countAssigned
  rw [List.countP_pos_iff]
  exact ⟨s, hs, by simp [ht]⟩

/-- C3: after `scheduleTasks` on a task list with unique ids and no
pre-assigned `scheduledTime`, every output task occupies exactly
`ceil(timeEstimate/30)` grid slots when its `scheduledTime` was set and zero
otherwise, and every assigned slot carries the id of one of the output tasks
(no slot ever names anything else, hence never two different tasks). -/
theorem c3_placement_conservation (st : SchedulerSettings) (now : Int)
    (tasks : List Task) (d0 days : Nat)
    (hclean : ∀ t ∈ tasks, t.scheduledTime = none)
    (hnd : (tasks.map (fun t => t.id)).Nodup) :
    (∀ t' ∈ (scheduleTasks st now tasks d0 days).2,
       countAssigned (scheduleTasks st now tasks d0 days).1 t'.id =
         if t'.scheduledTime.isSome then slotsNeededFor t'.timeEstimate else 0) ∧
    (∀ s ∈ (scheduleTasks st now tasks d0 days).1,
       s.task = none ∨
         ∃ t' ∈ (scheduleTasks st now tasks d0 days).2, s.task = some t'.id) := by
  have hperm := sortTasksByPriority_perm now tasks
  set sorted := sortTasksByPriority now tasks with hsorted
  set grid := generateTimeSlots st d0 days with hgrid
  have hfree : ∀ s ∈ grid, s.task = none := fun s hs => (generateTimeSlots_mem hs).2
  have hclean' : ∀ t ∈ sorted, t.scheduledTime = none := fun t ht =>
    hclean t (hperm.subset ht)
  have hz : ∀ t ∈ sorted, countAssigned grid t.id = 0 := fun t _ =>
    countAssigned_of_free hfree t.id
  have hnd' : (sorted.map (fun t => t.id)).Nodup :=
    ((hperm.map (fun t => t.id)).nodup_iff).2 hnd
  obtain ⟨hmap1, hout1, hin1⟩ := pass1_spec sorted grid hclean' hz hnd'
  have hid1 : ((pass1 sorted grid).2.map (fun t => t.id)) = sorted.map (fun t => t.id) := by
    have := congrArg (List.map Prod.fst) hmap1
    simpa [List.map_map, Function.comp] using this
  have hnd1 : ((pass1 sorted grid).2.map (fun t => t.id)).Nodup := by
    rw [hid1]
    exact hnd'
  obtain ⟨hmap2, hout2, hin2⟩ := pass2_spec (pass1 sorted grid).2 (pass1 sorted grid).1 hin1 hnd1
  have hid2 : ((pass2 (pass1 sorted grid).2 (pass1 sorted grid).1).2.map (fun t => t.id)) =
      (pass1 sorted grid).2.map (fun t => t.id) := by
    have := congrArg (List.map Prod.fst) hmap2
    simpa [List.map_map, Function.comp] using this
  have hrun : scheduleTasks st now tasks d0 days =
      pass2 (pass1 sorted grid).2 (pass1 sorted grid).1 := by
    simp only [scheduleTasks, runPasses, ← hsorted, ← hgrid]
  rw [hrun]
  refine ⟨hin2, ?_⟩
  intro s hs
  rcases h : s.task with _ | tid
  · exact Or.inl rfl
  · right
    by_cases hmem : tid ∈ (pass2 (pass1 sorted grid).2 (pass1 sorted grid).1).2.map
        (fun t => t.id)
    · rw [List.mem_map] at hmem
      obtain ⟨t', ht', hid'⟩ := hmem
      exact ⟨t', ht', by rw [hid']⟩
    · exfalso
      have hm1 : tid ∉ (pass1 sorted grid).2.map (fun t => t.id) := by
        rw [← hid2]
        exact hmem
      have hm0 : tid ∉ sorted.map (fun t => t.id) := by
        rw [← hid1]
        exact hm1
      have hcnt : countAssigned (pass2 (pass1 sorted grid).2 (pass1 sorted grid).1).1 tid = 0 := by
        rw [hout2 tid hm1, hout1 tid hm0]
        exact countAssigned_of_free hfree tid
      have := countAssigned_pos hs h
      omega

/-- Witness for C3: two tasks (one with deadline, one without) over a one-day
grid with four slots. -/
theorem c3_witness :
    (∀ t' ∈ (scheduleTasks ⟨0, 0, 2, 0, [0, 1, 2, 3, 4, 5, 6]⟩ 0
        [⟨1, 1, 60, some 60, none⟩, ⟨2, 2, 30, none, none⟩] 0 1).2,
       countAssigned (scheduleTasks ⟨0, 0, 2, 0, [0, 1, 2, 3, 4, 5, 6]⟩ 0
          [⟨1, 1, 60, some 60, none⟩, ⟨2, 2, 30, none, none⟩] 0 1).1 t'.id =
         if t'.scheduledTime.isSome then slotsNeededFor t'.timeEstimate else 0) ∧
    (∀ s ∈ (scheduleTasks ⟨0, 0, 2, 0, [0, 1, 2, 3, 4, 5, 6]⟩ 0
        [⟨1, 1, 60, some 60, none⟩, ⟨2, 2, 30, none, none⟩] 0 1).1,
       s.task = none ∨
         ∃ t' ∈ (scheduleTasks ⟨0, 0, 2, 0, [0, 1, 2, 3, 4, 5, 6]⟩ 0
            [⟨1, 1, 60, some 60, none⟩, ⟨2, 2, 30, none, none⟩] 0 1).2,
           s.task = some t'.id) :=
  c3_placement_conservation ⟨0, 0, 2, 0, [0, 1, 2, 3, 4, 5, 6]⟩ 0
    [⟨1, 1, 60, some 60, none⟩, ⟨2, 2, 30, none, none⟩] 0 1 (by decide) (by decide)

/-- C4: within one `scheduleTasks` run over a clean task list, assignments are
monotonic.  Splitting either pass at any point (the state after the first
`xs` placement steps versus after further steps), every slot `task` reference
already set stays set to the same id, and every `scheduledTime` already set
by a placement step keeps its value. -/
theorem c4_monotonic_assignment (now : Int) (tasks : List Task) (slots : List Slot)
    (hclean : ∀ t ∈ tasks, t.scheduledTime = none) :
    (∀ xs ys, xs ++ ys = sortTasksByPriority now tasks →
       SlotsMono (pass1 xs slots).1 (pass1 (xs ++ ys) slots).1 ∧
       TasksMono ((pass1 xs slots).2 ++ ys) (pass1 (xs ++ ys) slots).2) ∧
    (∀ xs ys, xs ++ ys = (pass1 (sortTasksByPriority now tasks) slots).2 →
       SlotsMono (pass2 xs (pass1 (sortTasksByPriority now tasks) slots).1).1
         (pass2 (xs ++ ys) (pass1 (sortTasksByPriority now tasks) slots).1).1 ∧
       TasksMono ((pass2 xs (pass1 (sortTasksByPriority now tasks) slots).1).2 ++ ys)
         (pass2 (xs ++ ys) (pass1 (sortTasksByPriority now tasks) slots).1).2) := by
  have hperm := sortTasksByPriority_perm now tasks
  constructor
  · intro xs ys hsplit
    rw [pass1_append xs ys slots]
    refine ⟨pass1_slotsMono ys (pass1 xs slots).1, ?_, ?_⟩
    · simp [pass1_length, List.length_append]
    · intro j u v hj hv
      by_cases hcmp : j < (pass1 xs slots).2.length
      · rw [List.getElem?_append_left hcmp] at hj
        refine ⟨u, ?_, hv⟩
        rw [List.getElem?_append_left hcmp]
        exact hj
      · rw [List.getElem?_append_right (by omega)] at hj
        obtain ⟨hlt, hu⟩ := List.getElem?_eq_some_iff.1 hj
        have humem : u ∈ ys := hu ▸ List.getElem_mem hlt
        have : u.scheduledTime = none := by
          apply hclean u
          apply hperm.subset
          rw [← hsplit]
          exact List.mem_append_right xs humem
        rw [this] at hv
        cases hv
  · intro xs ys hsplit
    set s1 := (pass1 (sortTasksByPriority now tasks) slots).1 with hs1
    rw [pass2_append xs ys s1]
    refine ⟨pass2_slotsMono ys (pass2 xs s1).1, ?_, ?_⟩
    · simp [pass2_length, List.length_append]
    · intro j u v hj hv
      by_cases hcmp : j < (pass2 xs s1).2.length
      · rw [List.getElem?_append_left hcmp] at hj
        refine ⟨u, ?_, hv⟩
        rw [List.getElem?_append_left hcmp]
        exact hj
      · rw [List.getElem?_append_right (by omega)] at hj
        obtain ⟨u', hu', hv'⟩ :=
          (pass2_tasksMono ys (pass2 xs s1).1).2 (j - (pass2 xs s1).2.length) u v hj hv
        refine ⟨u', ?_, hv'⟩
        rw [List.getElem?_append_right (by omega)]
        exact hu'

/-- Witness for C4 at a concrete run: one deadline task and one plain task
over a two-slot grid, both pass decompositions instantiated. -/
theorem c4_witness :
    (∀ xs ys, xs ++ ys = sortTasksByPriority 0
        [⟨1, 1, 30, some 60, none⟩, ⟨2, 2, 30, none, none⟩] →
       SlotsMono (pass1 xs [⟨0, 30, none⟩, ⟨30, 60, none⟩]).1
         (pass1 (xs ++ ys) [⟨0, 30, none⟩, ⟨30, 60, none⟩]).1 ∧
       TasksMono ((pass1 xs [⟨0, 30, none⟩, ⟨30, 60, none⟩]).2 ++ ys)
         (pass1 (xs ++ ys) [⟨0, 30, none⟩, ⟨30, 60, none⟩]).2) ∧
    (∀ xs ys, xs ++ ys = (pass1 (sortTasksByPriority 0
        [⟨1, 1, 30, some 60, none⟩, ⟨2, 2, 30, none, none⟩])
        [⟨0, 30, none⟩, ⟨30, 60, none⟩]).2 →
       SlotsMono (pass2 xs (pass1 (sortTasksByPriority 0
           [⟨1, 1, 30, some 60, none⟩, ⟨2, 2, 30, none, none⟩])
           [⟨0, 30, none⟩, ⟨30, 60, none⟩]).1).1
         (pass2 (xs ++ ys) (pass1 (sortTasksByPriority 0
           [⟨1, 1, 30, some 60, none⟩, ⟨2, 2, 30, none, none⟩])
           [⟨0, 30, none⟩, ⟨30, 60, none⟩]).1).1 ∧
       TasksMono ((pass2 xs (pass1 (sortTasksByPriority 0
           [⟨1, 1, 30, some 60, none⟩, ⟨2, 2, 30, none, none⟩])
           [⟨0, 30, none⟩, ⟨30, 60, none⟩]).1).2 ++ ys)
         (pass2 (xs ++ ys) (pass1 (sortTasksByPriority 0
           [⟨1, 1, 30, some 60, none⟩, ⟨2, 2, 30, none, none⟩])
           [⟨0, 30, none⟩, ⟨30, 60, none⟩]).1).2) :=
  c4_monotonic_assignment 0 [⟨1, 1, 30, some 60, none⟩, ⟨2, 2, 30, none, none⟩]
    [⟨0, 30, none⟩, ⟨30, 60, none⟩] (by decide)

end Scheduler